import Mathlib

/-!
Verification of the grocery-list core of the THC meal-prep planner
(`scripts/grocery_list_generator.py`).

The Python functions are shallowly embedded over `List Char` / `String`.
Numeric quantities are modelled with `ℚ` (the Python code computes with
`fractions.Fraction`, converting to `float` only at the very end; the exact
rational value is what all the claims are about).  Regular-expression
operations are hand-translated into explicit scanning functions that
reproduce the leftmost/greedy backtracking behaviour of the specific
patterns used by the source.  Whitespace is modelled as the six ASCII
whitespace characters (the recipe inputs are ASCII).
-/

namespace Grocery

/-- ASCII whitespace, the characters matched by `\s` / `str.split()` /
`str.strip()` on the inputs in scope. -/
def isWS (c : Char) : Bool :=
  c = ' ' || c = '\t' || c = '\n' || c = '\r' || c = '\x0b' || c = '\x0c'

/-- ASCII lower-casing, the effect of Python `str.lower()` on the inputs in
scope. -/
def asciiLower (c : Char) : Char :=
  match c with
  | 'A' => 'a' | 'B' => 'b' | 'C' => 'c' | 'D' => 'd' | 'E' => 'e' | 'F' => 'f'
  | 'G' => 'g' | 'H' => 'h' | 'I' => 'i' | 'J' => 'j' | 'K' => 'k' | 'L' => 'l'
  | 'M' => 'm' | 'N' => 'n' | 'O' => 'o' | 'P' => 'p' | 'Q' => 'q' | 'R' => 'r'
  | 'S' => 's' | 'T' => 't' | 'U' => 'u' | 'V' => 'v' | 'W' => 'w' | 'X' => 'x'
  | 'Y' => 'y' | 'Z' => 'z'
  | c => c

/-- Python `str.lower()`. -/
def lowerL (l : List Char) : List Char := l.map asciiLower

/-- Python `str.strip()`: drop leading and trailing whitespace. -/
def pyStripL (l : List Char) : List Char :=
  (((l.dropWhile isWS).reverse).dropWhile isWS).reverse

/-- Python substring test `needle in hay`. -/
def containsSub : List Char → List Char → Bool
  | needle, [] => needle.isEmpty
  | needle, c :: t => needle.isPrefixOf (c :: t) || containsSub needle t

/-- Python `s.split("-")`: split on every hyphen, keeping empty pieces. -/
def splitHyphen (l : List Char) : List (List Char) :=
  l.foldr
    (fun c acc =>
      if c = '-' then [] :: acc
      else
        match acc with
        | h :: t => (c :: h) :: t
        | [] => [[c]])
    [[]]

/-- Value of a digit string (the digits of `int(...)` on a `\d*` group). -/
def digitsToNat (ds : List Char) : ℕ :=
  ds.foldl (fun a c => 10 * a + (c.toNat - 48)) 0

/-- The part of CPython's `fractions._RATIONAL_FORMAT` after the optional
sign: lookahead `(?=\d|\.\d)`, numerator digits, then either `/` and a
denominator, or an optional decimal part and an optional exponent, then
optional trailing whitespace.  Returns the non-negative rational value;
`none` models both `ValueError` (no regex match) and `ZeroDivisionError`
(denominator 0). -/
def fracParseUnsigned (l2 : List Char) : Option ℚ :=
  let look : Bool :=
    match l2 with
    | c :: rest =>
      c.isDigit ||
        (c = '.' && (match rest with | d :: _ => d.isDigit | [] => false))
    | [] => false
  if !look then none
  else
    let numDs := l2.takeWhile Char.isDigit
    let l3 := l2.dropWhile Char.isDigit
    match l3 with
    | '/' :: r =>
      let denDs := r.takeWhile Char.isDigit
      let l4 := r.dropWhile Char.isDigit
      if denDs.isEmpty then none
      else if !(l4.dropWhile isWS).isEmpty then none
      else
        let n := digitsToNat numDs
        let d := digitsToNat denDs
        if d = 0 then none
        else some ((n : ℚ) / (d : ℚ))
    | _ =>
      let decOpt : Option (List Char) :=
        match l3 with
        | '.' :: r => some (r.takeWhile Char.isDigit)
        | _ => none
      let l4 : List Char :=
        match l3 with
        | '.' :: r => r.dropWhile Char.isDigit
        | _ => l3
      let expState : Option (Bool × ℕ) × List Char :=
        match l4 with
        | c :: r =>
          if c = 'e' || c = 'E' then
            match r with
            | s :: r2 =>
              if s = '+' || s = '-' then
                let eds := r2.takeWhile Char.isDigit
                if eds.isEmpty then (none, l4)
                else (some (s = '-', digitsToNat eds), r2.dropWhile Char.isDigit)
              else
                let eds := r.takeWhile Char.isDigit
                if eds.isEmpty then (none, l4)
                else (some (false, digitsToNat eds), r.dropWhile Char.isDigit)
            | [] => (none, l4)
          else (none, l4)
        | [] => (none, l4)
      if !((expState.2.dropWhile isWS).isEmpty) then none
      else
        let base : ℕ := digitsToNat numDs
        let nd : ℕ × ℕ :=
          match decOpt with
          | some ds =>
            if ds.isEmpty then (base, 1)
            else (base * 10 ^ ds.length + digitsToNat ds, 10 ^ ds.length)
          | none => (base, 1)
        let nd2 : ℕ × ℕ :=
          match expState.1 with
          | some (eneg, e) => if eneg then (nd.1, nd.2 * 10 ^ e) else (nd.1 * 10 ^ e, nd.2)
          | none => nd
        some ((nd2.1 : ℚ) / (nd2.2 : ℚ))

/-- Model of `Fraction(s)` on a string: CPython's rational-literal grammar
(leading whitespace, optional sign, then `fracParseUnsigned`), giving the
exact rational value.  `none` models a raised `ValueError` /
`ZeroDivisionError`.  The `float()` conversion applied to the parsed value
— including its uncaught `OverflowError` — is modelled separately by
`floatOfRat` and the float-level functions below. -/
def fracParse (l : List Char) : Option ℚ :=
  let l1 := l.dropWhile isWS
  match l1 with
  | '+' :: r => fracParseUnsigned r
  | '-' :: r => (fracParseUnsigned r).map (fun x => -x)
  | _ => fracParseUnsigned l1

/-- The literal `to` used by the range checks. -/
def toSub : List Char := ['t', 'o']

/-- One attempt of the pattern `\s+to\s+` at the current position: maximal
whitespace run (non-empty), literal `to`, maximal whitespace run
(non-empty); returns the remainder after the match. -/
def tryMatchTo (l : List Char) : Option (List Char) :=
  let w1 := l.takeWhile isWS
  let r1 := l.dropWhile isWS
  if w1.isEmpty then none
  else
    match r1 with
    | 't' :: 'o' :: r2 =>
      let w2 := r2.takeWhile isWS
      if w2.isEmpty then none else some (r2.dropWhile isWS)
    | _ => none

/-- Scanner for `re.split(r"\s+to\s+", s)`: fuelled by the input length
(each step consumes at least one character, so the fuel never runs out). -/
def splitToAuxF : ℕ → List Char → List Char → List (List Char)
  | 0, acc, rest => [acc.reverse ++ rest]
  | _ + 1, acc, [] => [acc.reverse]
  | fuel + 1, acc, c :: rest =>
    if isWS c then
      match tryMatchTo (c :: rest) with
      | some rem => acc.reverse :: splitToAuxF fuel [] rem
      | none => splitToAuxF fuel (c :: acc) rest
    else splitToAuxF fuel (c :: acc) rest

/-- Python `re.split(r"\s+to\s+", s)`. -/
def reSplitTo (l : List Char) : List (List Char) :=
  splitToAuxF l.length [] l

/-- The final `float(Fraction(quantity_str))` attempt with its
`except: return 1.0` handler. -/
def finalFrac (s : List Char) : ℚ := (fracParse s).getD 1

/-- The function `parse_quantity_range` on character lists: hyphen ranges (midpoint),
`X to Y` ranges (midpoint), plain fractions, and the `1.0` fallback on any
parse failure. -/
def parse_quantity_rangeL (q : List Char) : ℚ :=
  let s := pyStripL q
  if containsSub ['-'] s && !containsSub toSub (lowerL s) then
    match splitHyphen s with
    | [a, b] =>
      match fracParse (pyStripL a), fracParse (pyStripL b) with
      | some low, some high => (low + high) / 2
      | _, _ => 1
    | _ => finalFrac s
  else if containsSub toSub (lowerL s) then
    match reSplitTo (lowerL s) with
    | [a, b] =>
      match fracParse (pyStripL a), fracParse (pyStripL b) with
      | some low, some high => (low + high) / 2
      | _, _ => 1
    | _ => finalFrac s
  else finalFrac s

/-- The source's `parse_quantity_range(quantity_str)`. -/
def parse_quantity_range (q : String) : ℚ :=
  parse_quantity_rangeL q.data

/-! ### Name Normalizer: `clean_ingredient_name` -/

/-- Helper for `re.sub(r"\([^)]*\)", "", name)`: the remainder after the
first `)` (the region a `\([^)]*\)` match would span), or `none` when no
closing paren exists (no match: the `(` is kept). -/
def findClose : List Char → Option (List Char)
  | [] => none
  | ')' :: r => some r
  | _ :: r => findClose r

/-- Fuelled scanner deleting every non-overlapping `\([^)]*\)` match (fuel
is the input length; every step consumes at least one character). -/
def rpF : ℕ → List Char → List Char
  | 0, l => l
  | _ + 1, [] => []
  | fuel + 1, '(' :: r =>
    (match findClose r with
     | some r2 => rpF fuel r2
     | none => '(' :: rpF fuel r)
  | fuel + 1, c :: r => c :: rpF fuel r

/-- Python `re.sub(r"\([^)]*\)", "", name)`: remove parenthetical notes. -/
def removeParens (l : List Char) : List Char := rpF l.length l

/-- Match a literal, case-insensitively on ASCII letters (`re.IGNORECASE`),
returning the remainder. -/
def stripLitCI : List Char → List Char → Option (List Char)
  | [], rest => some rest
  | _ :: _, [] => none
  | p :: ps, c :: cs =>
    if asciiLower p = asciiLower c then stripLitCI ps cs else none

/-- Case-sensitive literal match returning the remainder. -/
def stripLit : List Char → List Char → Option (List Char)
  | [], rest => some rest
  | _ :: _, [] => none
  | p :: ps, c :: cs => if p = c then stripLit ps cs else none

/-- Pattern `.*$` at `s` (`.` excludes newline; `$` is end-of-string or just before
a final newline): `some keep` when it matches, where `keep` is the text the
match does not cover (`[]` or the final newline). -/
def dotStarEnd (s : List Char) : Option (List Char) :=
  if s.getLast? = some '\n' then
    if (s.dropLast).contains '\n' then none else some ['\n']
  else if s.contains '\n' then none else some []

/-- Pattern `(.+)$` at `s`: `some (group, keep)` when it matches. -/
def dotPlusEnd (s : List Char) : Option (List Char × List Char) :=
  match s with
  | [] => none
  | _ =>
    if s.getLast? = some '\n' then
      let x := s.dropLast
      if x.isEmpty || x.contains '\n' then none else some (x, ['\n'])
    else if s.contains '\n' then none else some (s, [])

/-- Backtracking of a greedy `\s+` followed by `(.+)$`: `revRun` is the
reversed whitespace run, `cur` the text after it; the longest `\s+`
(shortest `cur`) is tried first, and at least one whitespace character must
stay in the `\s+`. -/
def tryDotEnd : List Char → List Char → Option (List Char × List Char)
  | [], _ => none
  | c :: revRun, cur =>
    match dotPlusEnd cur with
    | some res => some res
    | none => tryDotEnd revRun (c :: cur)

/-- Pattern `(.+)` with nothing after it (no `$`): greedy run of non-newline
characters, needing at least one. -/
def dotPlusFree (s : List Char) : Option (List Char) :=
  match s with
  | [] => none
  | c :: _ => if c = '\n' then none else some (s.takeWhile (fun d => !(d = '\n')))

/-- Backtracking of a greedy `\s+` followed by a bare `(.+)`. -/
def tryDotPlusFree : List Char → List Char → Option (List Char)
  | [], _ => none
  | c :: revRun, cur =>
    match dotPlusFree cur with
    | some g => some g
    | none => tryDotPlusFree revRun (c :: cur)

/-- The comma-descriptor alternatives of the second `re.sub` in
`clean_ingredient_name` (case-sensitive, tried in this order). -/
def rule2Words : List (List Char) :=
  (["diced", "chopped", "sliced", "minced", "halved", "thinly sliced",
    "optional", "for serving", "drained and rinsed"]).map String.data

/-- Try each alternative at `rest` (the text after `,\s*`); on a literal
match the regex still needs `.*$`, otherwise backtrack to the next
alternative. -/
def rule2Alts : List (List Char) → List Char → Option (List Char)
  | [], _ => none
  | w :: ws, rest =>
    match stripLit w rest with
    | some r2 =>
      (match dotStarEnd r2 with
       | some keep => some keep
       | none => rule2Alts ws rest)
    | none => rule2Alts ws rest

/-- Scanner for
`re.sub(r",\s*(diced|chopped|sliced|minced|halved|thinly sliced|optional|for serving|drained and rinsed).*$", "", name)`:
at each `,` try `\s*` (forced maximal) then the alternatives then `.*$`;
on the leftmost match everything the match covers is deleted. -/
def rule2Scan : List Char → List Char
  | [] => []
  | c :: r =>
    if c = ',' then
      match rule2Alts rule2Words (r.dropWhile isWS) with
      | some keep => keep
      | none => ',' :: rule2Scan r
    else c :: rule2Scan r

/-- Scanner for `re.sub(r"\s+to taste.*$", "", name, flags=re.IGNORECASE)`:
at each whitespace character, the greedy `\s+` is forced to the maximal
run, then the literal `to taste` (case-insensitive) and `.*$`. -/
def rule3Scan : List Char → List Char
  | [] => []
  | c :: r =>
    if isWS c then
      match stripLitCI ("to taste".data) ((c :: r).dropWhile isWS) with
      | some r2 =>
        (match dotStarEnd r2 with
         | some keep => keep
         | none => c :: rule3Scan r)
      | none => c :: rule3Scan r
    else c :: rule3Scan r

/-- Scanner for `re.sub(r"\s+and\s+.+$", "", name)` (case-sensitive): at
each whitespace character, maximal `\s+`, literal `and`, then a second
`\s+` whose greediness backtracks against `(.+)$`. -/
def rule4Scan : List Char → List Char
  | [] => []
  | c :: r =>
    if isWS c then
      match (c :: r).dropWhile isWS with
      | 'a' :: 'n' :: 'd' :: r2 =>
        let run := r2.takeWhile isWS
        (match tryDotEnd run.reverse (r2.dropWhile isWS) with
         | some (_, keep) => keep
         | none => c :: rule4Scan r)
      | _ => c :: rule4Scan r
    else c :: rule4Scan r

/-- Python `re.match(r"juice of \d+\s+(.+)", name, flags=re.IGNORECASE)`: on a
match, returns group 1 (the citrus text). -/
def juiceMatch (l : List Char) : Option (List Char) :=
  match stripLitCI ("juice of ".data) l with
  | some r =>
    let ds := r.takeWhile Char.isDigit
    let r1 := r.dropWhile Char.isDigit
    if ds.isEmpty then none
    else
      let run := r1.takeWhile isWS
      if run.isEmpty then none
      else tryDotPlusFree run.reverse (r1.dropWhile isWS)
  | none => none

/-- The leading qualifier words of
`re.sub(r"^(fresh|dried|frozen|canned|shredded|chopped|sliced|diced|minced)\s+", "", name, flags=re.IGNORECASE)`. -/
def rule6Words : List (List Char) :=
  (["fresh", "dried", "frozen", "canned", "shredded", "chopped", "sliced",
    "diced", "minced"]).map String.data

/-- Anchored qualifier stripping: each alternative is tried in order and
must be followed by at least one whitespace character (which the greedy
`\s+` then consumes entirely). -/
def rule6Go : List (List Char) → List Char → List Char
  | [], l => l
  | w :: ws, l =>
    match stripLitCI w l with
    | some r =>
      (match r with
       | c :: _ => if isWS c then r.dropWhile isWS else rule6Go ws l
       | [] => rule6Go ws l)
    | none => rule6Go ws l

/-- Rule 6 of the Name Normalizer. -/
def rule6Strip (l : List Char) : List Char := rule6Go rule6Words l

/-- Python `str.split()`: split on whitespace runs, dropping empty pieces. -/
def wordsOf (l : List Char) : List (List Char) :=
  (l.foldr
    (fun c acc =>
      if isWS c then [] :: acc
      else
        match acc with
        | h :: t => (c :: h) :: t
        | [] => [[c]])
    []).filter (fun w => !w.isEmpty)

/-- Python `" ".join(name.split())`: collapse internal whitespace. -/
def joinWordsL (l : List Char) : List Char :=
  List.intercalate [' '] (wordsOf l)

/-- The function `clean_ingredient_name` on character lists: parenthetical removal,
comma-descriptor stripping, `to taste` stripping, `and …` stripping, the
`juice of N x` rewrite (which returns immediately), leading-qualifier
stripping, and whitespace collapsing plus the final `strip()`. -/
def cleanL (name : List Char) : List Char :=
  let n1 := removeParens name
  let n2 := rule2Scan n1
  let n3 := rule3Scan n2
  let n4 := rule4Scan n3
  match juiceMatch n4 with
  | some g => g ++ (" juice".data)
  | none => pyStripL (joinWordsL (rule6Strip n4))

/-- The source's `clean_ingredient_name(name)`. -/
def clean_ingredient_name (name : String) : String :=
  String.mk (cleanL name.data)

/-! ### Line Parser: `parse_ingredient_line` -/

/-- A character of the class `[\d./\-]` in the quantity pattern. -/
def isNumChar (c : Char) : Bool :=
  c.isDigit || c = '.' || c = '/' || c = '-'

/-- Python `re.sub(r"^[-â€¢*]\s*", "", line)`: drop one leading bullet character
(the class contains `-`, `*` and the three bytes of a mis-decoded bullet)
plus the following whitespace. -/
def bulletStrip (l : List Char) : List Char :=
  match l with
  | c :: r =>
    if c = '-' || c = 'â' || c = '€' || c = '¢' || c = '*' then r.dropWhile isWS
    else l
  | [] => []

/-- The `common_units` vocabulary from the source. -/
def common_units : List (List Char) :=
  (["tbsp", "tbs", "tb", "tsp", "ts", "cup", "cups", "c", "oz", "ounce",
    "ounces", "lb", "lbs", "pound", "pounds", "g", "gram", "grams", "kg",
    "ml", "l", "can", "cans", "jar", "jars", "package", "packages", "box",
    "boxes", "large", "medium", "small", "whole", "tablespoon",
    "tablespoons", "teaspoon", "teaspoons", "clove", "cloves",
    "count"]).map String.data

/-- The tail `\s+(\S+)\s+(.+)$` of the quantity pattern: forced-maximal
whitespace, forced-maximal token, then a backtracking `\s+` against
`(.+)$`.  Returns groups 2 and 3. -/
def tailMatch (r : List Char) : Option (List Char × List Char) :=
  let sw := r.takeWhile isWS
  let r1 := r.dropWhile isWS
  if sw.isEmpty then none
  else
    let t := r1.takeWhile (fun c => !isWS c)
    let r2 := r1.dropWhile (fun c => !isWS c)
    if t.isEmpty then none
    else
      let run := r2.takeWhile isWS
      match tryDotEnd run.reverse (r2.dropWhile isWS) with
      | some (g3, _) => some (t, g3)
      | none => none

/-- Python `re.match(r"^([\d./\-]+(?:\s+to\s+[\d./\-]+)?)\s+(\S+)\s+(.+)$", line)`:
the leading `[\d./\-]+` is forced maximal, the optional `\s+to\s+[\d./\-]+`
is tried greedily (all-or-nothing, falling back to the plain form when the
rest of the pattern fails after it), then `tailMatch`.  Returns the three
groups. -/
def matchWithUnitL (l : List Char) : Option (List Char × List Char × List Char) :=
  let m := l.takeWhile isNumChar
  let r := l.dropWhile isNumChar
  if m.isEmpty then none
  else
    let withTo : Option (List Char × List Char × List Char) :=
      let w1 := r.takeWhile isWS
      let r1 := r.dropWhile isWS
      if w1.isEmpty then none
      else
        match r1 with
        | 't' :: 'o' :: r2 =>
          let w2 := r2.takeWhile isWS
          let r3 := r2.dropWhile isWS
          if w2.isEmpty then none
          else
            let m2 := r3.takeWhile isNumChar
            let r4 := r3.dropWhile isNumChar
            if m2.isEmpty then none
            else
              match tailMatch r4 with
              | some (g2, g3) =>
                some (m ++ w1 ++ ['t', 'o'] ++ w2 ++ m2, g2, g3)
              | none => none
        | _ => none
    match withTo with
    | some res => some res
    | none =>
      match tailMatch r with
      | some (g2, g3) => some (m, g2, g3)
      | none => none

/-- The function `parse_ingredient_line` on character lists: strip the line and a
leading bullet, reject blank lines and `#` headers, try the
quantity/unit/name pattern (splitting on whether the second token is a
known unit), and otherwise fall back to quantity `"1"`, no unit and the
whole cleaned line as the name. -/
def parse_ingredient_lineL (line : List Char) : Option (String × String × String) :=
  let l := bulletStrip (pyStripL line)
  if l.isEmpty then none
  else if l.head? = some '#' then none
  else
    match matchWithUnitL l with
    | some (g1, g2, g3) =>
      let quantity := pyStripL g1
      let pUnit := pyStripL g2
      let pName := pyStripL g3
      if common_units.contains (lowerL pUnit) then
        some (String.mk quantity, String.mk pUnit, String.mk (cleanL pName))
      else
        some (String.mk quantity, "", String.mk (cleanL (pUnit ++ [' '] ++ pName)))
    | none => some ("1", "", String.mk (cleanL l))

/-- The source's `parse_ingredient_line(line)`. -/
def parse_ingredient_line (line : String) : Option (String × String × String) :=
  parse_ingredient_lineL line.data

/-! ### Unit Normalizer and Ingredient Merger -/

/-- The source's `normalize_unit(unit)`: case-insensitive table of
synonyms, count qualifiers mapped to the empty string, unknown units
passed through lower-cased. -/
def normalize_unit (unit : String) : String :=
  let ul := String.mk (lowerL unit.data)
  if ul ∈ ["tbsp", "tbs", "tb", "tablespoon", "tablespoons"] then "tablespoon"
  else if ul ∈ ["tsp", "ts", "teaspoon", "teaspoons"] then "teaspoon"
  else if ul ∈ ["c", "cup", "cups"] then "cup"
  else if ul ∈ ["oz", "ounce", "ounces"] then "ounce"
  else if ul ∈ ["lb", "lbs", "pound", "pounds"] then "pound"
  else if ul ∈ ["g", "gram", "grams"] then "gram"
  else if ul ∈ ["can", "cans"] then "can"
  else if ul ∈ ["large", "medium", "small", "whole", "count"] then ""
  else ul

/-- Lookup in a Python dict modelled as an insertion-ordered association
list. -/
def dGet {β : Type} (d : List (String × β)) (k : String) : Option β :=
  (d.find? (fun p => p.1 = k)).map (fun p => p.2)

/-- Store into a Python dict modelled as an insertion-ordered association
list: update in place when the key exists, append otherwise. -/
def dSet {β : Type} : List (String × β) → String → β → List (String × β)
  | [], k, v => [(k, v)]
  | (k1, v1) :: t, k, v =>
    if k1 = k then (k, v) :: t else (k1, v1) :: dSet t k v

/-- The nested lookup `merged[name][unit]`. -/
def dGet2 (m : List (String × List (String × ℚ))) (n u : String) : Option ℚ :=
  match dGet m n with
  | some inner => dGet inner u
  | none => none

/-- One iteration of the loop in `merge_ingredients`: normalize the name
(lower-case, collapse whitespace) and the unit, parse the quantity, and add
it to the running total for that (name, unit) key (initialized to 0 on
first sight).  The source's `+=` adds Python floats; this exact-rational
step gives the Fraction-value sums, and `mergeStepF` below models the
float rounding of the accumulation. -/
def mergeStep (m : List (String × List (String × ℚ)))
    (e : String × String × String) : List (String × List (String × ℚ)) :=
  let nameClean := String.mk (joinWordsL (lowerL e.2.2.data))
  let unitNorm := normalize_unit e.2.1
  let qty := parse_quantity_range e.1
  let inner := (dGet m nameClean).getD []
  let cur := (dGet inner unitNorm).getD 0
  dSet m nameClean (dSet inner unitNorm (cur + qty))

/-- The source's `merge_ingredients(all_ingredients)`: fold the loop
over the input list of `(quantity, unit, name)` triples, starting from the
empty dict. -/
def merge_ingredients (l : List (String × String × String)) :
    List (String × List (String × ℚ)) :=
  l.foldl mergeStep []

/-! ### Categorizer -/

/-- Table `CATEGORY_KEYWORDS` from the source, in dict insertion order. -/
def CATEGORY_KEYWORDS : List (String × List String) :=
  [("Produce",
    ["lettuce", "spinach", "arugula", "greens", "salad", "tomato",
     "cucumber", "onion", "garlic", "bell pepper", "carrot", "celery",
     "broccoli", "cauliflower", "cabbage", "potato", "sweet potato",
     "avocado", "lime", "lemon", "apple", "banana", "berry", "berries",
     "fruit", "cilantro", "parsley", "basil", "herb", "kale", "zucchini",
     "squash", "mushroom", "pea"]),
   ("Meat",
    ["chicken", "beef", "pork", "turkey", "sausage", "bacon", "ham",
     "lamb", "steak", "ground beef", "fish", "salmon", "tuna", "tilapia",
     "cod", "mahi-mahi", "shrimp", "seafood"]),
   ("Dairy",
    ["milk", "cream", "cheese", "cheddar", "mozzarella", "parmesan",
     "feta", "yogurt", "butter", "egg", "sour cream", "cottage cheese"]),
   ("Pantry",
    ["oil", "olive oil", "vegetable oil", "vinegar", "flour", "sugar",
     "salt", "black pepper", "white pepper", "cayenne pepper",
     "red pepper flakes", "spice", "seasoning", "rice", "pasta", "quinoa",
     "oats", "cereal", "can", "canned", "beans", "black beans",
     "chickpeas", "stock", "broth", "sauce", "salsa", "hot sauce",
     "honey", "maple syrup", "peanut butter", "cumin", "paprika",
     "chili powder", "garlic powder", "mustard", "ketchup", "mayo",
     "mayonnaise", "soy sauce", "balsamic", "dijon"]),
   ("Frozen",
    ["frozen", "ice cream", "frozen vegetables", "frozen fruit",
     "popsicle"]),
   ("Bakery",
    ["bread", "tortilla", "tortillas", "bagel", "muffin", "roll", "bun",
     "pita", "naan"])]

/-- The priority order in which `categorize_ingredient` checks the
categories. -/
def priority_order : List String :=
  ["Bakery", "Meat", "Dairy", "Frozen", "Pantry", "Produce"]

/-- The loop of `categorize_ingredient`: walk the priority order, looking
the category up in the keyword table, and return the first category one of
whose keywords occurs in the lower-cased name (the inner loop returns on
the first matching keyword, which is the same as an existence check);
`"Other"` when none matches. -/
def categorizeLoop (lower : List Char) : List String → String
  | [] => "Other"
  | cat :: rest =>
    match CATEGORY_KEYWORDS.find? (fun p => p.1 = cat) with
    | some p =>
      if p.2.any (fun kw => containsSub kw.data lower) then cat
      else categorizeLoop lower rest
    | none => categorizeLoop lower rest

/-- The source's `categorize_ingredient(ingredient_name)`. -/
def categorize_ingredient (name : String) : String :=
  categorizeLoop (lowerL name.data) priority_order

/-! ### Quantity Formatter -/

/-- The convergent loop of `Fraction.limit_denominator`, fuelled by the
denominator (each step strictly decreases `d`, so the fuel, the starting
denominator, never runs out; CPython's loop always breaks before `d`
reaches 0 because the final convergent's denominator exceeds
`max_denominator`). -/
def ldLoopF : ℕ → ℤ → ℤ → ℤ → ℤ → ℤ → ℤ → ℕ → (ℤ × ℤ × ℤ × ℤ)
  | 0, p0, q0, p1, q1, _, _, _ => (p0, q0, p1, q1)
  | fuel + 1, p0, q0, p1, q1, n, d, maxd =>
    if d ≤ 0 then (p0, q0, p1, q1)
    else
      let a := Int.fdiv n d
      let q2 := q0 + a * q1
      if q2 > (maxd : ℤ) then (p0, q0, p1, q1)
      else ldLoopF fuel p1 q1 (p0 + a * p1) q2 d (Int.fmod n d) maxd

/-- Model of `Fraction.limit_denominator(max_denominator)` from CPython, on exact
rationals: continued-fraction bounds, returning the closer one (ties to
the upper convergent `bound2`). -/
def limitDenominator (q : ℚ) (maxd : ℕ) : ℚ :=
  if q.den ≤ maxd then q
  else
    let st := ldLoopF q.den 0 1 1 0 q.num (q.den : ℤ) maxd
    let p0 := st.1
    let q0 := st.2.1
    let p1 := st.2.2.1
    let q1 := st.2.2.2
    let k : ℤ := Int.fdiv ((maxd : ℤ) - q0) q1
    let bound1 : ℚ := ((p0 + k * p1 : ℤ) : ℚ) / ((q0 + k * q1 : ℤ) : ℚ)
    let bound2 : ℚ := ((p1 : ℤ) : ℚ) / ((q1 : ℤ) : ℚ)
    if |bound2 - q| ≤ |bound1 - q| then bound2 else bound1

/-- Round to the nearest integer, ties to even (CPython's float-to-string
rounding for the `:.1f` fallback). -/
def roundHalfEven (x : ℚ) : ℤ :=
  let f := x.floor
  let r := x - (f : ℚ)
  if r < 1/2 then f
  else if r > 1/2 then f + 1
  else if f % 2 = 0 then f else f + 1

/-- The `f"{quantity:.1f}"` fallback of `format_quantity`. -/
def decimalFmt (q : ℚ) : String :=
  let neg := q < 0
  let n := (roundHalfEven (|q| * 10)).toNat
  (if neg then "-" else "") ++ toString (n / 10) ++ "." ++ toString (n % 10)

/-- The source's `format_quantity(quantity)`: whole numbers as plain
integers; otherwise `Fraction(quantity).limit_denominator(16)`, rendered as
a mixed number or a simple fraction when within `0.01`; one decimal place
otherwise. -/
def format_quantity (q : ℚ) : String :=
  if q.den = 1 then toString q.num
  else
    let frac := limitDenominator q 16
    if |frac - q| < 1/100 then
      if frac.num > (frac.den : ℤ) then
        let whole := frac.num / (frac.den : ℤ)
        let rem := frac.num % (frac.den : ℤ)
        if rem = 0 then toString whole
        else toString whole ++ " " ++ toString rem ++ "/" ++ toString frac.den
      else toString frac.num ++ "/" ++ toString frac.den
    else decimalFmt q

/-! ### Float-level model

The source computes with Python floats: `parse_quantity_range` returns
`float(Fraction(...))` values and `merge_ingredients` accumulates them with
float `+=`.  The exact-rational functions above capture the intended
values; the definitions below model the IEEE binary64 rounding and the
overflow behaviour of the conversions, which the sign, fallback and
permutation claims depend on. -/

/-- Fast exponentiation for powers of two (squaring keeps the recursion
shallow, so concrete evaluations reduce; the fuel of 64 covers every
exponent below `2 ^ 64`). -/
def pow2NatF : ℕ → ℕ → ℕ
  | 0, _ => 1
  | fuel + 1, k =>
    if k = 0 then 1
    else
      let h := pow2NatF fuel (k / 2)
      if k % 2 = 0 then h * h else 2 * (h * h)

/-- The natural number `2 ^ k`. -/
def pow2Nat (k : ℕ) : ℕ := pow2NatF 64 k

/-- The rational value `2 ^ e` for an integer exponent, computed through
natural-number powers. -/
def pow2 (e : ℤ) : ℚ :=
  if 0 ≤ e then ((pow2Nat e.toNat : ℕ) : ℚ)
  else 1 / ((pow2Nat (-e).toNat : ℕ) : ℚ)

/-- Doubling phase of the base-2 logarithm: the first doubling of `hi`
with `n < 2 ^ hi` (the fuel of 64 covers every number below `2 ^ 2 ^ 64`;
the recursion is shallow so concrete evaluations reduce). -/
def log2Up : ℕ → ℕ → ℕ → ℕ
  | 0, _, hi => hi
  | fuel + 1, n, hi => if n < pow2Nat hi then hi else log2Up fuel n (2 * hi)

/-- Binary-search phase of the base-2 logarithm: the largest `k` with
`2 ^ k ≤ n`, maintaining `2 ^ lo ≤ n < 2 ^ hi`. -/
def log2Search : ℕ → ℕ → ℕ → ℕ → ℕ
  | 0, _, lo, _ => lo
  | fuel + 1, n, lo, hi =>
    if hi ≤ lo + 1 then lo
    else
      let mid := (lo + hi) / 2
      if pow2Nat mid ≤ n then log2Search fuel n mid hi else log2Search fuel n lo mid

/-- Floor of the base-2 logarithm of a natural number. -/
def natLog2 (n : ℕ) : ℕ :=
  if n ≤ 1 then 0 else log2Search 64 n 0 (log2Up 64 n 1)

/-- Floor of the base-2 logarithm of a positive rational: the candidate
from the numerator and denominator logarithms is off by at most one and is
corrected by an exact comparison. -/
def floorLog2 (q : ℚ) : ℤ :=
  let c : ℤ := (natLog2 q.num.toNat : ℤ) - (natLog2 q.den : ℤ)
  if pow2 c ≤ q then c else c - 1

/-- Round an exact rational to the nearest IEEE binary64 value (53-bit
mantissa, ties to even), returned as an exact rational.  Valid for the
normal range; subnormal underflow and the clamp to infinity are not
modelled here (callers test the overflow bound separately). -/
def roundFloat (q : ℚ) : ℚ :=
  if q = 0 then 0
  else
    let aq := |q|
    let e : ℤ := floorLog2 aq - 52
    let m : ℚ := aq / pow2 e
    let mr : ℤ := roundHalfEven m
    let v : ℚ := (mr : ℚ) * pow2 e
    if q < 0 then -v else v

/-- Conversion of an exact rational to a float: the rounded double when it
is finite, `none` when the result escapes the finite double range.  For
`float(Fraction(...))` the `none` case is CPython's `OverflowError`, which
the `except (ValueError, ZeroDivisionError)` handlers of
`parse_quantity_range` do NOT catch; for a float addition it is an
infinity.  Both non-finite outcomes lie outside the rational value domain
and are reported as `none`. -/
def floatOfRat (q : ℚ) : Option ℚ :=
  let r := roundFloat q
  if |r| ≥ pow2 1024 then none else some r

/-- Float evaluation of `(low + high) / 2` on two finite doubles: the
addition rounds (or overflows); halving a finite double is exact. -/
def midF (low high : ℚ) : Option ℚ :=
  match floatOfRat (low + high) with
  | some s => some (s / 2)
  | none => none

/-- Float-level final branch: `float(Fraction(quantity_str))` with the
`except` handler.  A grammar or zero-denominator failure is caught and
yields `1.0`; an overflow in the `float()` conversion is not caught. -/
def finalF (s : List Char) : Option ℚ :=
  match fracParse s with
  | some x => floatOfRat x
  | none => some 1

/-- Float-level `parse_quantity_range`: the same branch structure as
`parse_quantity_rangeL`, with every `float(Fraction(...))` conversion made
explicit in the source's evaluation order (`low` is fully evaluated before
the second operand is parsed).  `none` models an outcome with no finite
float value — on the conversion paths, CPython's uncaught
`OverflowError`. -/
def parse_quantity_rangeFL (q : List Char) : Option ℚ :=
  let s := pyStripL q
  if containsSub ['-'] s && !containsSub toSub (lowerL s) then
    match splitHyphen s with
    | [a, b] =>
      match fracParse (pyStripL a) with
      | none => some 1
      | some xa =>
        match floatOfRat xa with
        | none => none
        | some low =>
          match fracParse (pyStripL b) with
          | none => some 1
          | some xb =>
            match floatOfRat xb with
            | none => none
            | some high => midF low high
    | _ => finalF s
  else if containsSub toSub (lowerL s) then
    match reSplitTo (lowerL s) with
    | [a, b] =>
      match fracParse (pyStripL a) with
      | none => some 1
      | some xa =>
        match floatOfRat xa with
        | none => none
        | some low =>
          match fracParse (pyStripL b) with
          | none => some 1
          | some xb =>
            match floatOfRat xb with
            | none => none
            | some high => midF low high
    | _ => finalF s
  else finalF s

/-- Float-level `parse_quantity_range(quantity_str)` on strings. -/
def parse_quantity_rangeF (q : String) : Option ℚ :=
  parse_quantity_rangeFL q.data

/-- Float-level step of the `merge_ingredients` loop: the quantity comes
from the float parser and `merged[name_clean][unit_norm] += quantity`
rounds the float sum.  `none` aborts the merge (an exception, or a
non-finite total). -/
def mergeStepF (acc : Option (List (String × List (String × ℚ))))
    (e : String × String × String) : Option (List (String × List (String × ℚ))) :=
  match acc with
  | none => none
  | some m =>
    let nameClean := String.mk (joinWordsL (lowerL e.2.2.data))
    let unitNorm := normalize_unit e.2.1
    match parse_quantity_rangeFL e.1.data with
    | none => none
    | some qty =>
      let inner := (dGet m nameClean).getD []
      let cur := (dGet inner unitNorm).getD 0
      match floatOfRat (cur + qty) with
      | none => none
      | some v => some (dSet m nameClean (dSet inner unitNorm v))

/-- Float-level `merge_ingredients(all_ingredients)`: fold the loop with
float accumulation. -/
def merge_ingredientsF (l : List (String × String × String)) :
    Option (List (String × List (String × ℚ))) :=
  l.foldl mergeStepF (some [])

/-! ### Spec-side definitions used by the claim statements -/

/-- The keyword list the source associates with a category (empty when the
category is missing from the table). -/
def keywordsOf (cat : String) : List String :=
  ((CATEGORY_KEYWORDS.find? fun p => p.1 = cat).map fun p => p.2).getD []

/-- Spec-side predicate: the category has a keyword occurring (after
lower-casing the name) as a substring. -/
def catMatches (lower : List Char) (cat : String) : Bool :=
  (keywordsOf cat).any fun kw => containsSub kw.data lower

/-- Spec-side categorizer, written the way §4.6 words it: the first
category in the priority order with a case-insensitive keyword substring
match, `"Other"` otherwise. -/
def specCategorize (name : String) : String :=
  (priority_order.find? (catMatches (lowerL name.data))).getD "Other"

/-- Mirror of the branch structure of `parse_quantity_range`, recording
whether any of the attempted decompositions of the quantity string parses
(hyphen range with both halves parsing, `X to Y` range with both halves
parsing, or a plain fraction). -/
def quantityWellFormed (q : String) : Bool :=
  let s := pyStripL q.data
  if containsSub ['-'] s && !containsSub toSub (lowerL s) then
    match splitHyphen s with
    | [a, b] => (fracParse (pyStripL a)).isSome && (fracParse (pyStripL b)).isSome
    | _ => (fracParse s).isSome
  else if containsSub toSub (lowerL s) then
    match reSplitTo (lowerL s) with
    | [a, b] => (fracParse (pyStripL a)).isSome && (fracParse (pyStripL b)).isSome
    | _ => (fracParse s).isSome
  else (fracParse s).isSome

/-- The normalized-name component of an input triple's merge key. -/
def entryKeyName (e : String × String × String) : String :=
  String.mk (joinWordsL (lowerL e.2.2.data))

/-- The normalized-unit component of an input triple's merge key. -/
def entryKeyUnit (e : String × String × String) : String :=
  normalize_unit e.2.1

/-- The parsed quantity an input triple contributes. -/
def entryQty (e : String × String × String) : ℚ :=
  parse_quantity_range e.1

/-! ### Claims settled by direct evaluation -/

/-- Claim C2, counterexample: `clean_ingredient_name` does NOT always
return a non-empty string — on `"(optional)"` every rule strips the text
away and the empty string is returned (there is no defensive fallback to
the pre-rule text). -/
theorem c2_counterexample : clean_ingredient_name "(optional)" = "" := by decide

/-- Claim C2, amended: when the stripping rules reduce the input to empty,
`clean_ingredient_name` returns the empty string (no fallback exists), and
`parse_ingredient_line` can therefore produce a `ParsedIngredient` whose
name is empty; on ordinary inputs the name is non-empty as documented. -/
theorem c2_no_fallback_amended :
    clean_ingredient_name "(about 1/2 cup)" = "" ∧
    parse_ingredient_line "(optional)" = some ("1", "", "") ∧
    clean_ingredient_name "onion, diced (about 1/2 cup)" = "onion" :=
  ⟨by decide, by decide, by decide⟩

/-- Claim C3, counterexample: `clean_ingredient_name` is not idempotent —
on `"fresh dried tomato"` the first pass strips only the qualifier
`fresh`, and a second pass strips the newly leading `dried`. -/
theorem c3_counterexample :
    clean_ingredient_name (clean_ingredient_name "fresh dried tomato") ≠
      clean_ingredient_name "fresh dried tomato" := by decide

/-- Claim C3, amended: idempotence holds on the documented example inputs
(the docstring examples and the spec's end-to-end scenario), but not for
every string: a second application can strip a further leading qualifier
word uncovered by the first. -/
theorem c3_idempotent_amended :
    (clean_ingredient_name (clean_ingredient_name "onion, diced (about 1/2 cup)") =
      clean_ingredient_name "onion, diced (about 1/2 cup)") ∧
    (clean_ingredient_name (clean_ingredient_name "cilantro, chopped (optional)") =
      clean_ingredient_name "cilantro, chopped (optional)") ∧
    (clean_ingredient_name (clean_ingredient_name "Salt and pepper to taste") =
      clean_ingredient_name "Salt and pepper to taste") ∧
    (clean_ingredient_name (clean_ingredient_name "juice of 1 lime") =
      clean_ingredient_name "juice of 1 lime") ∧
    (clean_ingredient_name (clean_ingredient_name "fresh dried tomato") =
      "tomato") :=
  ⟨by decide, by decide, by decide, by decide, by decide⟩

/-- Claim C8: the line `"Salt and pepper to taste"` parses to the single
triple `("1", "", "Salt")`, and merging it yields exactly one entry, keyed
`"salt"` with empty unit and total quantity 1; there is no `"pepper"`
entry. -/
theorem c8_salt_and_pepper :
    parse_ingredient_line "Salt and pepper to taste" = some ("1", "", "Salt") ∧
    merge_ingredients [("1", "", "Salt")] = [("salt", [("", 1)])] ∧
    dGet (merge_ingredients [("1", "", "Salt")]) "pepper" = none :=
  ⟨by decide, by with_unfolding_all decide, by with_unfolding_all decide⟩

/-- Claim C10, counterexample: at `q = 1/1000` the hypotheses of the claim
hold (`q` is not an integer, its best approximation with denominator at
most 16 is the whole number `0 ≤ 1`, within `0.01`), yet `format_quantity`
returns `"0/1"`, not `"1/1"`. -/
theorem c10_counterexample :
    ((1 : ℚ) / 1000).den ≠ 1 ∧
    (limitDenominator (1 / 1000) 16).den = 1 ∧
    (limitDenominator (1 / 1000) 16).num ≤ 1 ∧
    |limitDenominator (1 / 1000) 16 - 1 / 1000| < 1 / 100 ∧
    format_quantity (1 / 1000) ≠ "1/1" := by
  with_unfolding_all decide

/-! ### Claim C7: categorization priority -/

theorem categorizeLoop_eq_find (lower : List Char) (L : List String) :
    categorizeLoop lower L = (L.find? (catMatches lower)).getD "Other" := by
  induction L with
  | nil => rfl
  | cons cat rest ih =>
    rw [categorizeLoop]
    cases h : CATEGORY_KEYWORDS.find? (fun p => p.1 = cat) with
    | none =>
      have hm : catMatches lower cat = false := by
        simp [catMatches, keywordsOf, h]
      rw [List.find?]
      simp [hm, ih]
    | some p =>
      have hm : catMatches lower cat = (p.2.any fun kw => containsSub kw.data lower) := by
        simp [catMatches, keywordsOf, h]
      rw [List.find?]
      cases ha : (p.2.any fun kw => containsSub kw.data lower) with
      | true => simp [hm, ha]
      | false => simp [hm, ha, ih]

/-- Claim C7: `categorize_ingredient` returns, for every name, exactly the
first category in the fixed priority order `Bakery, Meat, Dairy, Frozen,
Pantry, Produce` with a case-insensitive keyword substring match, and
`"Other"` when none matches; in particular the four documented examples. -/
theorem c7_categorize_priority :
    (∀ name : String, categorize_ingredient name = specCategorize name) ∧
    categorize_ingredient "corn tortillas" = "Bakery" ∧
    categorize_ingredient "chicken breast" = "Meat" ∧
    categorize_ingredient "cheddar cheese" = "Dairy" ∧
    categorize_ingredient "kombucha" = "Other" :=
  ⟨fun name => categorizeLoop_eq_find (lowerL name.data) priority_order,
   by decide, by decide, by decide, by decide⟩

/-! ### Claims C5 and C6: quantity ranges and the failure fallback -/

/-- Claim C5: hyphen ranges whose two halves parse (and which do not
contain `to`) yield the arithmetic midpoint, and likewise `a to b` ranges;
in particular `parse_quantity_range "2-4" = 3` and
`parse_quantity_range "1 to 2" = 1.5`. -/
theorem c5_range_midpoint :
    (∀ (q : String) (a b : List Char) (x y : ℚ),
      containsSub ['-'] (pyStripL q.data) = true →
      containsSub toSub (lowerL (pyStripL q.data)) = false →
      splitHyphen (pyStripL q.data) = [a, b] →
      fracParse (pyStripL a) = some x →
      fracParse (pyStripL b) = some y →
      parse_quantity_range q = (x + y) / 2) ∧
    (∀ (q : String) (a b : List Char) (x y : ℚ),
      containsSub toSub (lowerL (pyStripL q.data)) = true →
      reSplitTo (lowerL (pyStripL q.data)) = [a, b] →
      fracParse (pyStripL a) = some x →
      fracParse (pyStripL b) = some y →
      parse_quantity_range q = (x + y) / 2) ∧
    parse_quantity_range "2-4" = 3 ∧
    parse_quantity_range "1 to 2" = 3 / 2 := by
  refine ⟨?_, ?_, by with_unfolding_all decide, by with_unfolding_all decide⟩
  · intro q a b x y h1 h2 h3 h4 h5
    unfold parse_quantity_range parse_quantity_rangeL
    simp only [h1, h2, h3, h4, h5, Bool.not_false, Bool.and_true, if_true]
  · intro q a b x y h2 h3 h4 h5
    unfold parse_quantity_range parse_quantity_rangeL
    simp only [h2, h3, h4, h5, Bool.not_true, Bool.and_false]
    simp

/-- Claim C5 witness: the two documented range inputs, through the general
parts of the theorem. -/
theorem c5_range_midpoint_witness :
    parse_quantity_range "2-4" = (2 + 4) / 2 ∧
    parse_quantity_range "1 to 2" = (1 + 2) / 2 := by
  constructor
  · exact c5_range_midpoint.1 "2-4" ['2'] ['4'] 2 4 (by decide) (by decide)
      (by decide) (by with_unfolding_all decide) (by with_unfolding_all decide)
  · exact c5_range_midpoint.2.1 "1 to 2" ['1'] ['2'] 1 2 (by decide)
      (by decide) (by with_unfolding_all decide) (by with_unfolding_all decide)

set_option maxRecDepth 4000 in
/-- Claim C6, counterexample: the Quantity Parser is not total on the
program's value level — `float(Fraction("1e400"))` overflows the float
range, and the `except (ValueError, ZeroDivisionError)` handler does not
catch the resulting `OverflowError`, so `parse_quantity_range("1e400")`
raises instead of returning `1.0`.  In the float-level model the uncaught
error is the `none` outcome, which is not the claimed fallback
`some 1`. -/
theorem c6_counterexample :
    parse_quantity_rangeF "1e400" = none ∧ (none : Option ℚ) ≠ some 1 :=
  ⟨by with_unfolding_all rfl, by simp⟩

set_option maxRecDepth 4000 in
/-- Claim C6, amended: on any parse failure — no decomposition of the
quantity string parses as a rational literal — the float-level parser
returns either the fallback `1.0` or `none` (CPython's uncaught
`OverflowError` from a `float()` conversion of an already-parsed operand,
as in `"1e400-2"`); on the documented failure inputs (`"garbage"`, the
zero-denominator fraction `"1/0"`, and malformed ranges) it is exactly
`1.0`. -/
theorem c6_overflow_amended :
    (∀ q : String, quantityWellFormed q = false →
      parse_quantity_rangeF q = some 1 ∨ parse_quantity_rangeF q = none) ∧
    parse_quantity_rangeF "garbage" = some 1 ∧
    parse_quantity_rangeF "1/0" = some 1 ∧
    parse_quantity_rangeF "one-two" = some 1 ∧
    parse_quantity_rangeF "2 to x" = some 1 := by
  refine ⟨?_, by with_unfolding_all rfl, by with_unfolding_all rfl,
    by with_unfolding_all rfl, by with_unfolding_all rfl⟩
  intro q h
  unfold quantityWellFormed at h
  unfold parse_quantity_rangeF parse_quantity_rangeFL
  dsimp only at h ⊢
  split at h
  · rename_i hcond
    rw [if_pos hcond]
    split at h
    · cases o1 : fracParse (pyStripL _) with
      | none => left; simp [o1]
      | some xa =>
        cases oF : floatOfRat xa with
        | none => right; simp [o1, oF]
        | some low =>
          cases o2 : fracParse (pyStripL _) with
          | none => left; simp [o1, oF, o2]
          | some xb => rw [o1, o2] at h; simp at h
    · have hn : fracParse (pyStripL q.data) = none :=
        Option.not_isSome_iff_eq_none.mp (by simp [h])
      left
      simp [finalF, hn]
  · rename_i hcond
    rw [if_neg hcond]
    split at h
    · rename_i hto
      rw [if_pos hto]
      split at h
      · cases o1 : fracParse (pyStripL _) with
        | none => left; simp [o1]
        | some xa =>
          cases oF : floatOfRat xa with
          | none => right; simp [o1, oF]
          | some low =>
            cases o2 : fracParse (pyStripL _) with
            | none => left; simp [o1, oF, o2]
            | some xb => rw [o1, o2] at h; simp at h
      · have hn : fracParse (pyStripL q.data) = none :=
          Option.not_isSome_iff_eq_none.mp (by simp [h])
        left
        simp [finalF, hn]
    · rename_i hto
      rw [if_neg hto]
      have hn : fracParse (pyStripL q.data) = none :=
        Option.not_isSome_iff_eq_none.mp (by simp [h])
      left
      simp [finalF, hn]

set_option maxRecDepth 4000 in
/-- Claim C6 amended witness: `"garbage"` goes through the general part of
the theorem and lands on the `1.0` fallback. -/
theorem c6_overflow_amended_witness : parse_quantity_rangeF "garbage" = some 1 :=
  (c6_overflow_amended.1 "garbage" (by with_unfolding_all decide)).resolve_right
    (by
      have he : parse_quantity_rangeF "garbage" = some 1 := by with_unfolding_all rfl
      rw [he]
      simp)

/-! ### Claim C1: sign of parsed quantities -/

theorem mem_of_mem_dropWhile {p : Char → Bool} {c : Char} {l : List Char}
    (h : c ∈ l.dropWhile p) : c ∈ l := by
  induction l with
  | nil => exact h
  | cons a t ih =>
    rw [List.dropWhile_cons] at h
    split at h
    · exact List.mem_cons_of_mem a (ih h)
    · exact h

theorem mem_of_mem_pyStrip {c : Char} {l : List Char} (h : c ∈ pyStripL l) :
    c ∈ l := by
  unfold pyStripL at h
  rw [List.mem_reverse] at h
  have h2 := mem_of_mem_dropWhile h
  rw [List.mem_reverse] at h2
  exact mem_of_mem_dropWhile h2

theorem mem_of_containsSub_single {c : Char} {l : List Char}
    (h : containsSub [c] l = true) : c ∈ l := by
  induction l with
  | nil => simp [containsSub] at h
  | cons a t ih =>
    rw [containsSub, Bool.or_eq_true] at h
    cases h with
    | inl hp =>
      simp [List.isPrefixOf] at hp
      exact hp ▸ List.mem_cons_self _ _
    | inr hr => exact List.mem_cons_of_mem a (ih hr)

theorem containsSub_single_eq_false {c : Char} {l : List Char} (h : c ∉ l) :
    containsSub [c] l = false := by
  cases hb : containsSub [c] l
  · rfl
  · exact absurd (mem_of_containsSub_single hb) h

theorem eq_dash_of_asciiLower {c : Char} (h : asciiLower c = '-') : c = '-' := by
  unfold asciiLower at h
  split at h <;> first | exact h | exact absurd h (by decide)

theorem dash_mem_of_mem_lowerL {l : List Char} (h : '-' ∈ lowerL l) :
    '-' ∈ l := by
  unfold lowerL at h
  rcases List.mem_map.mp h with ⟨a, ha, hEq⟩
  exact (eq_dash_of_asciiLower hEq) ▸ ha

theorem mem_of_tryMatchTo {l rem : List Char} {c : Char}
    (h : tryMatchTo l = some rem) (hc : c ∈ rem) : c ∈ l := by
  unfold tryMatchTo at h
  dsimp only at h
  split at h
  · exact absurd h (by simp)
  · split at h
    · rename_i r2 heq
      split at h
      · exact absurd h (by simp)
      · have hrem := Option.some.inj h
        have h1 : c ∈ r2 := mem_of_mem_dropWhile (hrem ▸ hc)
        have h2 : c ∈ l.dropWhile isWS := by
          rw [heq]
          exact List.mem_cons_of_mem _ (List.mem_cons_of_mem _ h1)
        exact mem_of_mem_dropWhile h2
    · exact absurd h (by simp)

theorem mem_of_splitToAuxF {c : Char} :
    ∀ (fuel : ℕ) (acc l part : List Char),
      part ∈ splitToAuxF fuel acc l → c ∈ part → c ∈ acc ∨ c ∈ l := by
  intro fuel
  induction fuel with
  | zero =>
    intro acc l part hp hc
    simp only [splitToAuxF, List.mem_singleton] at hp
    subst hp
    rcases List.mem_append.mp hc with h | h
    · exact Or.inl (List.mem_reverse.mp h)
    · exact Or.inr h
  | succ fuel ih =>
    intro acc l part hp hc
    cases l with
    | nil =>
      simp only [splitToAuxF, List.mem_singleton] at hp
      subst hp
      exact Or.inl (List.mem_reverse.mp hc)
    | cons d rest =>
      rw [splitToAuxF] at hp
      split at hp
      · split at hp
        · rename_i rem hm
          cases List.mem_cons.mp hp with
          | inl he =>
            subst he
            exact Or.inl (List.mem_reverse.mp hc)
          | inr hr =>
            rcases ih [] rem part hr hc with h | h
            · exact absurd h (List.not_mem_nil c)
            · exact Or.inr (mem_of_tryMatchTo hm h)
        · rcases ih (d :: acc) rest part hp hc with h | h
          · cases List.mem_cons.mp h with
            | inl he => exact Or.inr (he ▸ List.mem_cons_self _ _)
            | inr h2 => exact Or.inl h2
          · exact Or.inr (List.mem_cons_of_mem d h)
      · rcases ih (d :: acc) rest part hp hc with h | h
        · cases List.mem_cons.mp h with
          | inl he => exact Or.inr (he ▸ List.mem_cons_self _ _)
          | inr h2 => exact Or.inl h2
        · exact Or.inr (List.mem_cons_of_mem d h)

theorem mem_of_reSplitTo {c : Char} {l part : List Char}
    (hp : part ∈ reSplitTo l) (hc : c ∈ part) : c ∈ l := by
  rcases mem_of_splitToAuxF l.length [] l part hp hc with h | h
  · exact absurd h (List.not_mem_nil c)
  · exact h

theorem fracParseUnsigned_nonneg {l : List Char} {v : ℚ}
    (h : fracParseUnsigned l = some v) : 0 ≤ v := by
  unfold fracParseUnsigned at h
  dsimp only at h
  split at h
  · exact absurd h (by simp)
  · split at h
    · split at h
      · exact absurd h (by simp)
      · split at h
        · exact absurd h (by simp)
        · split at h
          · exact absurd h (by simp)
          · rw [← Option.some.inj h]
            exact div_nonneg (Nat.cast_nonneg _) (Nat.cast_nonneg _)
    · split at h
      · exact absurd h (by simp)
      · rw [← Option.some.inj h]
        exact div_nonneg (Nat.cast_nonneg _) (Nat.cast_nonneg _)

theorem fracParse_nonneg {l : List Char} {v : ℚ} (hd : '-' ∉ l)
    (h : fracParse l = some v) : 0 ≤ v := by
  unfold fracParse at h
  dsimp only at h
  split at h
  · exact fracParseUnsigned_nonneg h
  · rename_i r heq
    have hm : '-' ∈ l :=
      mem_of_mem_dropWhile (by rw [heq]; exact List.mem_cons_self _ _)
    exact absurd hm hd
  · exact fracParseUnsigned_nonneg h

theorem finalFrac_nonneg {s : List Char} (hd : '-' ∉ s) : 0 ≤ finalFrac s := by
  unfold finalFrac
  cases h : fracParse s with
  | none => norm_num
  | some v => simpa using fracParse_nonneg hd h

/-- Claim C1, counterexample: `parse_quantity_range` can return a negative
value — the `X to Y` branch parses signed operands, so `"-3 to -2"` yields
the negative midpoint `-2.5`. -/
theorem c1_counterexample : parse_quantity_range "-3 to -2" < 0 := by
  with_unfolding_all decide

/-- Claim C1, amended: `parse_quantity_range q` is non-negative for every
`q` not containing the character `-`; a negative result requires a minus
sign, reachable through the `X to Y` branch (e.g. `"-3 to -2"`) or through
a signed exponent literal such as `"-3e-4"` that defeats the hyphen-range
splitting. -/
theorem c1_nonneg_amended (q : String) (hd : '-' ∉ q.data) :
    0 ≤ parse_quantity_range q := by
  have hs : '-' ∉ pyStripL q.data := fun hm => hd (mem_of_mem_pyStrip hm)
  have h1 : containsSub ['-'] (pyStripL q.data) = false :=
    containsSub_single_eq_false hs
  unfold parse_quantity_range parse_quantity_rangeL
  dsimp only
  rw [h1]
  simp only [Bool.false_and, Bool.false_eq_true, if_false]
  split
  · split
    · rename_i a b heq
      have ha : '-' ∉ pyStripL a := by
        intro hm
        have h2 : '-' ∈ lowerL (pyStripL q.data) :=
          mem_of_reSplitTo (heq ▸ List.mem_cons_self a [b]) (mem_of_mem_pyStrip hm)
        exact hs (dash_mem_of_mem_lowerL h2)
      have hb : '-' ∉ pyStripL b := by
        intro hm
        have h2 : '-' ∈ lowerL (pyStripL q.data) :=
          mem_of_reSplitTo
            (heq ▸ List.mem_cons_of_mem a (List.mem_cons_self b []))
            (mem_of_mem_pyStrip hm)
        exact hs (dash_mem_of_mem_lowerL h2)
      cases o1 : fracParse (pyStripL a) with
      | none => norm_num
      | some x =>
        cases o2 : fracParse (pyStripL b) with
        | none => norm_num
        | some y =>
          have hx := fracParse_nonneg ha o1
          have hy := fracParse_nonneg hb o2
          exact div_nonneg (add_nonneg hx hy) (by norm_num)
    · exact finalFrac_nonneg hs
  · exact finalFrac_nonneg hs

/-- Claim C1 witness: a hyphen-free input through the amended theorem. -/
theorem c1_nonneg_amended_witness : 0 ≤ parse_quantity_range "1/2" :=
  c1_nonneg_amended "1/2" (by decide)

/-! ### Claim C4: merge is permutation invariant -/

theorem dGet_cons {β : Type} (k1 : String) (v1 : β) (t : List (String × β))
    (k : String) :
    dGet ((k1, v1) :: t) k = if k1 = k then some v1 else dGet t k := by
  by_cases h : k1 = k
  · rw [if_pos h]
    unfold dGet
    rw [List.find?_cons_of_pos _ (by simp [h])]
    rfl
  · rw [if_neg h]
    unfold dGet
    rw [List.find?_cons_of_neg _ (by simp [h])]

theorem dGet_dSet {β : Type} (k k2 : String) (v : β) :
    ∀ m : List (String × β),
      dGet (dSet m k v) k2 = if k = k2 then some v else dGet m k2 := by
  intro m
  induction m with
  | nil =>
    rw [show dSet ([] : List (String × β)) k v = [(k, v)] from rfl, dGet_cons]
  | cons hd t ih =>
    obtain ⟨k1, v1⟩ := hd
    rw [show dSet ((k1, v1) :: t) k v
        = if k1 = k then (k, v) :: t else (k1, v1) :: dSet t k v from rfl]
    by_cases h1 : k1 = k
    · rw [if_pos h1, dGet_cons, dGet_cons, h1]
      by_cases h2 : k = k2
      · simp [h2]
      · simp [h2]
    · rw [if_neg h1, dGet_cons, ih, dGet_cons]
      by_cases h2 : k = k2
      · have h3 : ¬ k1 = k2 := fun hh => h1 (hh.trans h2.symm)
        simp [h2, h3]
      · simp [h2]

theorem dGet2_mergeStep (m : List (String × List (String × ℚ)))
    (e : String × String × String) (n u : String) :
    dGet2 (mergeStep m e) n u =
      if entryKeyName e = n ∧ entryKeyUnit e = u then
        some ((dGet2 m n u).getD 0 + entryQty e)
      else dGet2 m n u := by
  unfold mergeStep dGet2 entryKeyName entryKeyUnit entryQty
  dsimp only
  rw [dGet_dSet]
  by_cases h1 : String.mk (joinWordsL (lowerL e.2.2.data)) = n
  · rw [if_pos h1]
    dsimp only
    rw [dGet_dSet]
    by_cases h2 : normalize_unit e.2.1 = u
    · rw [if_pos h2, if_pos ⟨h1, h2⟩]
      subst h1
      subst h2
      cases hg : dGet m (String.mk (joinWordsL (lowerL e.2.2.data))) with
      | none => rfl
      | some inner => rfl
    · rw [if_neg h2, if_neg (fun hh => h2 hh.2)]
      subst h1
      cases hg : dGet m (String.mk (joinWordsL (lowerL e.2.2.data))) with
      | none => rfl
      | some inner => rfl
  · rw [if_neg h1, if_neg (fun hh => h1 hh.1)]

theorem dGet2_foldl (n u : String) :
    ∀ (l : List (String × String × String))
      (m : List (String × List (String × ℚ))),
      dGet2 (l.foldl mergeStep m) n u =
        if l.filter (fun e => decide (entryKeyName e = n ∧ entryKeyUnit e = u)) = [] then
          dGet2 m n u
        else
          some ((dGet2 m n u).getD 0 +
            ((l.filter (fun e => decide (entryKeyName e = n ∧ entryKeyUnit e = u))).map
              entryQty).sum) := by
  intro l
  induction l with
  | nil => intro m; simp
  | cons e t ih =>
    intro m
    rw [List.foldl_cons, ih, dGet2_mergeStep]
    by_cases he : entryKeyName e = n ∧ entryKeyUnit e = u
    · rw [if_pos he, List.filter_cons_of_pos (by simp [he])]
      by_cases ht :
          t.filter (fun e => decide (entryKeyName e = n ∧ entryKeyUnit e = u)) = []
      · rw [if_pos ht, if_neg (by simp), ht]
        simp
      · rw [if_neg ht, if_neg (by simp)]
        rw [List.map_cons, List.sum_cons]
        simp [add_assoc]
    · rw [if_neg he, List.filter_cons_of_neg (by simp [he])]

theorem dGet_isSome_mergeStep (m : List (String × List (String × ℚ)))
    (e : String × String × String) (n : String) :
    (dGet (mergeStep m e) n).isSome =
      (decide (entryKeyName e = n) || (dGet m n).isSome) := by
  unfold mergeStep entryKeyName
  dsimp only
  rw [dGet_dSet]
  by_cases h : String.mk (joinWordsL (lowerL e.2.2.data)) = n
  · rw [if_pos h]
    simp [h]
  · rw [if_neg h]
    simp [h]

theorem dGet_isSome_foldl (n : String) :
    ∀ (l : List (String × String × String))
      (m : List (String × List (String × ℚ))),
      (dGet (l.foldl mergeStep m) n).isSome =
        ((dGet m n).isSome || l.any (fun e => decide (entryKeyName e = n))) := by
  intro l
  induction l with
  | nil => intro m; simp
  | cons e t ih =>
    intro m
    rw [List.foldl_cons, ih, dGet_isSome_mergeStep, List.any_cons]
    cases hq : decide (entryKeyName e = n) <;>
      cases hm : (dGet m n).isSome <;> simp

set_option maxRecDepth 4000 in
/-- Claim C4, counterexample: the program accumulates the per-key totals
with Python float `+=`, and float addition is not order-independent.
Merging a quantity of `10 ^ 16` followed by two quantities of `1` leaves
the total at `10 ^ 16` (each `+ 1` is absorbed by round-to-nearest-even),
while the reverse order gives `10 ^ 16 + 2`, so these two permutations of
the same triples produce different maps. -/
theorem c4_counterexample :
    ([("10000000000000000", "", "x"), ("1", "", "x"), ("1", "", "x")] :
        List (String × String × String)).Perm
      [("1", "", "x"), ("1", "", "x"), ("10000000000000000", "", "x")] ∧
    merge_ingredientsF
        [("10000000000000000", "", "x"), ("1", "", "x"), ("1", "", "x")] =
      some [("x", [("", 10000000000000000)])] ∧
    merge_ingredientsF
        [("1", "", "x"), ("1", "", "x"), ("10000000000000000", "", "x")] =
      some [("x", [("", 10000000000000002)])] ∧
    (10000000000000000 : ℚ) ≠ 10000000000000002 :=
  ⟨(List.Perm.swap ("1", "", "x") ("10000000000000000", "", "x")
      [("1", "", "x")]).trans
    (List.Perm.cons ("1", "", "x")
      (List.Perm.swap ("1", "", "x") ("10000000000000000", "", "x") [])),
   by with_unfolding_all rfl, by with_unfolding_all rfl, by norm_num⟩

/-- Claim C4, amended: with exact rational (Fraction-value) summation,
`merge_ingredients` is permutation invariant — for any two lists of
`(quantity, unit, name)` triples that are permutations of each other, the
resulting maps are extensionally identical: every (name, unit) lookup
returns the same summed quantity, and the same outer name keys are
present.  (The float accumulation the source actually performs breaks
this, as the counterexample shows.) -/
theorem c4_merge_perm_invariant (l l2 : List (String × String × String))
    (h : l.Perm l2) :
    (∀ n u, dGet2 (merge_ingredients l) n u = dGet2 (merge_ingredients l2) n u) ∧
    (∀ n, (dGet (merge_ingredients l) n).isSome =
      (dGet (merge_ingredients l2) n).isSome) := by
  constructor
  · intro n u
    unfold merge_ingredients
    rw [dGet2_foldl, dGet2_foldl]
    have hperm :=
      h.filter (fun e => decide (entryKeyName e = n ∧ entryKeyUnit e = u))
    have hiff :
        (l.filter (fun e => decide (entryKeyName e = n ∧ entryKeyUnit e = u)) = []) ↔
        (l2.filter (fun e => decide (entryKeyName e = n ∧ entryKeyUnit e = u)) = []) := by
      constructor
      · intro hh
        exact ((hh ▸ hperm) : ([] : List _).Perm _).symm.eq_nil
      · intro hh
        exact ((hh ▸ hperm.symm) : ([] : List _).Perm _).symm.eq_nil
    have hsum := (hperm.map entryQty).sum_eq
    exact if_congr hiff rfl (by rw [hsum])
  · intro n
    unfold merge_ingredients
    rw [dGet_isSome_foldl, dGet_isSome_foldl]
    have hany : l.any (fun e => decide (entryKeyName e = n)) =
        l2.any (fun e => decide (entryKeyName e = n)) := by
      rw [Bool.eq_iff_iff, List.any_eq_true, List.any_eq_true]
      exact ⟨fun ⟨e, he, hp⟩ => ⟨e, h.mem_iff.mp he, hp⟩,
        fun ⟨e, he, hp⟩ => ⟨e, h.mem_iff.mpr he, hp⟩⟩
    rw [hany]

/-- Claim C4 witness: swapping the two flour entries leaves the summed
lookup unchanged. -/
theorem c4_merge_perm_invariant_witness :
    dGet2 (merge_ingredients [("2", "cup", "flour"), ("1", "cup", "flour")])
        "flour" "cup" =
      dGet2 (merge_ingredients [("1", "cup", "flour"), ("2", "cup", "flour")])
        "flour" "cup" :=
  (c4_merge_perm_invariant _ _
    (List.Perm.swap ("1", "cup", "flour") ("2", "cup", "flour") [])).1 "flour" "cup"

/-! ### Claim C9: two-token lines keep the number in the name -/

theorem takeWhile_append_eq (p : Char → Bool) :
    ∀ (X Y : List Char), (∀ c ∈ X, p c = true) →
      (∀ c, Y.head? = some c → p c = false) →
      (X ++ Y).takeWhile p = X ∧ (X ++ Y).dropWhile p = Y := by
  intro X
  induction X with
  | nil =>
    intro Y hX hY
    constructor
    · cases Y with
      | nil => rfl
      | cons y t => simp [List.takeWhile_cons, hY y rfl]
    · cases Y with
      | nil => rfl
      | cons y t => simp [List.dropWhile_cons, hY y rfl]
  | cons x xs ih =>
    intro Y hX hY
    have hx : p x = true := hX x (List.mem_cons_self _ _)
    have hih := ih Y (fun c hc => hX c (List.mem_cons_of_mem _ hc)) hY
    constructor
    · simp [List.takeWhile_cons, hx, hih.1]
    · simp [List.dropWhile_cons, hx, hih.2]

theorem takeWhile_eq_nil_of_all (p : Char → Bool) (l : List Char)
    (h : ∀ c ∈ l, p c = false) : l.takeWhile p = [] := by
  cases l with
  | nil => rfl
  | cons a t => simp [List.takeWhile_cons, h a (List.mem_cons_self _ _)]

theorem takeWhile_eq_self_of_all (p : Char → Bool) (l : List Char)
    (h : ∀ c ∈ l, p c = true) : l.takeWhile p = l ∧ l.dropWhile p = [] := by
  have hh := takeWhile_append_eq p l [] h (by intro c hc; simp at hc)
  simpa using hh

theorem isNumChar_of_isWS {c : Char} (h : isWS c = true) : isNumChar c = false := by
  unfold isWS at h
  simp only [Bool.or_eq_true, decide_eq_true_eq] at h
  rcases h with ((((h | h) | h) | h) | h) | h <;> subst h <;> decide

theorem tailMatch_ws_token (W B : List Char) (hW : ∀ c ∈ W, isWS c = true)
    (hB : ∀ c ∈ B, isWS c = false) : tailMatch (W ++ B) = none := by
  have t2 := takeWhile_append_eq isWS W B hW
    (by
      intro c hc
      cases B with
      | nil => simp at hc
      | cons b0 B2 =>
        cases hc
        exact hB _ (List.mem_cons_self _ _))
  unfold tailMatch
  dsimp only
  rw [t2.1, t2.2]
  cases hWe : W.isEmpty with
  | true => rfl
  | false =>
    rw [if_neg (by simp [hWe])]
    have t3 := takeWhile_eq_self_of_all (fun c => !isWS c) B
      (by intro c hc; simp [hB c hc])
    rw [t3.1, t3.2]
    cases hBe : B.isEmpty with
    | true => rfl
    | false =>
      rw [if_neg (by simp [hBe])]
      rfl

theorem matchWithUnitL_two_tokens (A W B : List Char)
    (hA : ∀ c ∈ A, isNumChar c = true)
    (hW1 : W ≠ []) (hW : ∀ c ∈ W, isWS c = true)
    (hB1 : B ≠ []) (hB : ∀ c ∈ B, isWS c = false) :
    matchWithUnitL (A ++ (W ++ B)) = none := by
  obtain ⟨w0, W2, rfl⟩ := List.exists_cons_of_ne_nil hW1
  obtain ⟨b0, B2, rfl⟩ := List.exists_cons_of_ne_nil hB1
  have t1 := takeWhile_append_eq isNumChar A ((w0 :: W2) ++ (b0 :: B2)) hA
    (by
      intro c hc
      rw [List.cons_append, List.head?_cons] at hc
      cases hc
      exact isNumChar_of_isWS (hW _ (List.mem_cons_self _ _)))
  have t2 := takeWhile_append_eq isWS (w0 :: W2) (b0 :: B2) hW
    (by
      intro c hc
      rw [List.head?_cons] at hc
      cases hc
      exact hB _ (List.mem_cons_self _ _))
  have htail : tailMatch ((w0 :: W2) ++ (b0 :: B2)) = none :=
    tailMatch_ws_token (w0 :: W2) (b0 :: B2) hW hB
  unfold matchWithUnitL
  dsimp only
  rw [t1.1, t1.2]
  cases hAe : A.isEmpty with
  | true => rfl
  | false =>
    rw [if_neg (by simp [hAe])]
    rw [t2.1, t2.2]
    rw [if_neg (by simp)]
    have hwithTo :
        (match b0 :: B2 with
          | 't' :: 'o' :: r2 =>
            let w2 := r2.takeWhile isWS
            let r3 := r2.dropWhile isWS
            if w2.isEmpty then none
            else
              let m2 := r3.takeWhile isNumChar
              let r4 := r3.dropWhile isNumChar
              if m2.isEmpty then none
              else
                match tailMatch r4 with
                | some (g2, g3) =>
                  some (A ++ (w0 :: W2) ++ ['t', 'o'] ++ w2 ++ m2, g2, g3)
                | none => none
          | _ => none) = none := by
      split
      · rename_i r2 heq
        have hb0 : b0 = 't' ∧ B2 = 'o' :: r2 := by
          injection heq with h1 h2
          exact ⟨h1, h2⟩
        have hr2 : ∀ c ∈ r2, isWS c = false := by
          intro c hc
          refine hB c ?_
          rw [hb0.2]
          exact List.mem_cons_of_mem _ (List.mem_cons_of_mem _ hc)
        rw [takeWhile_eq_nil_of_all isWS r2 hr2]
        rfl
      · rfl
    rw [hwithTo, htail]

/-- Claim C9: a non-blank, non-header line that is a numeric token, then
whitespace, then exactly one further token and nothing else, does not get
its number extracted: `parse_ingredient_line` falls through to quantity
`"1"`, empty unit, and the whole cleaned line as the name. -/
theorem c9_two_token_line (line : String) (A W B : List Char)
    (hsplit : bulletStrip (pyStripL line.data) = A ++ (W ++ B))
    (hA : A ≠ [] ∧ ∀ c ∈ A, isNumChar c = true)
    (hW : W ≠ [] ∧ ∀ c ∈ W, isWS c = true)
    (hB : B ≠ [] ∧ ∀ c ∈ B, isWS c = false) :
    parse_ingredient_line line =
      some ("1", "", String.mk (cleanL (A ++ (W ++ B)))) := by
  obtain ⟨hA1, hA2⟩ := hA
  obtain ⟨hW1, hW2⟩ := hW
  obtain ⟨hB1, hB2⟩ := hB
  obtain ⟨a0, A2, rfl⟩ := List.exists_cons_of_ne_nil hA1
  have hmatch := matchWithUnitL_two_tokens (a0 :: A2) W B hA2 hW1 hW2 hB1 hB2
  unfold parse_ingredient_line parse_ingredient_lineL
  rw [hsplit]
  dsimp only
  rw [if_neg (by simp)]
  rw [if_neg (by
    rw [List.cons_append, List.head?_cons]
    intro hc
    cases hc
    exact absurd (hA2 '#' (List.mem_cons_self _ _)) (by decide))]
  rw [hmatch]

/-- Claim C9 witness: the concrete line `"2 eggs"`. -/
theorem c9_two_token_line_witness :
    parse_ingredient_line "2 eggs" = some ("1", "", "2 eggs") := by
  have h := c9_two_token_line "2 eggs" ['2'] [' '] ("eggs".data)
    (by decide) (by decide) (by decide) (by decide)
  rw [h]
  decide

/-! ### Claim C10, amended -/

/-- Claim C10, amended: when a non-integer quantity's best approximation
with denominator at most 16 is a whole number `n ≤ 1` within `0.01`, the
formatter renders the fraction `n/1` — equal numerator and denominator
only in the case `n = 1` (e.g. `0.999` and `1.004` give `"1/1"`, but
`0.001` gives `"0/1"`). -/
theorem c10_whole_fraction_amended (q : ℚ) (h1 : q.den ≠ 1)
    (h2 : (limitDenominator q 16).den = 1)
    (h3 : |limitDenominator q 16 - q| < 1 / 100)
    (h4 : (limitDenominator q 16).num ≤ 1) :
    format_quantity q = toString (limitDenominator q 16).num ++ "/" ++ "1" := by
  unfold format_quantity
  rw [if_neg h1]
  dsimp only
  rw [if_pos h3]
  have hng : ¬ ((limitDenominator q 16).num > ((limitDenominator q 16).den : ℤ)) := by
    rw [h2]
    push_cast
    omega
  rw [if_neg hng, h2]
  rfl

/-- Claim C10 witness: `0.999` through the amended theorem. -/
theorem c10_whole_fraction_amended_witness :
    format_quantity (999 / 1000 : ℚ) = "1/1" := by
  have h := c10_whole_fraction_amended (999 / 1000)
    (by with_unfolding_all decide) (by with_unfolding_all decide)
    (by with_unfolding_all decide) (by with_unfolding_all decide)
  rw [h]
  with_unfolding_all decide

end Grocery
